import Mathlib

/-!
Verification development for the session-lifecycle and event-replay subsystem
of the gitlab-mcp repository.

The embedding mirrors the TypeScript sources:
* `src/inMemoryEventStore.ts` : `InMemoryEventStore` (event log) and
  `DynamicGitLabConfigManager` (session registry) with the zod schema
  `DynamicConfigSchema`.
* the session-aware client module : `SessionAwareGitLabClient` and
  `SessionClientManager`.

Modelling conventions:
* JavaScript `Map` objects become insertion-ordered association lists;
  `Map.set` overwrites in place when the key exists, otherwise appends.
* Strings handled character-by-character (event ids) are `List Char`;
  `String.prototype.localeCompare` is modelled as code-unit comparison,
  which agrees with it on the ASCII alphanumeric ids the store generates.
* `Date.now()` and `Math.random()` become explicit `now` / `rand` arguments.
* Async sequencing collapses: a replay is the list of `send` invocations in
  the order they are awaited.
-/

namespace GitLabMcp

/-- Character sequences, the model of JavaScript strings handled
character-by-character. -/
abbrev Str := List Char

/-- Code-unit comparison of single characters. -/
def charLt (a b : Char) : Bool := decide (a.toNat < b.toNat)

/-- Lexicographic code-unit comparison, the model of
`a.localeCompare(b) < 0` on the ASCII ids the store generates. -/
def strLt : Str → Str → Bool
  | [], [] => false
  | [], _ :: _ => true
  | _ :: _, [] => false
  | a :: as, b :: bs =>
    if charLt a b then true else if charLt b a then false else strLt as bs

/-- Non-strict version of `strLt`, the sort order used by the comparator
`(a, b) => a[0].localeCompare(b[0])`. -/
def strLe (a b : Str) : Bool := !(strLt b a)

theorem strLt_irrefl : ∀ a : Str, strLt a a = false := by
  intro a
  induction a with
  | nil => rfl
  | cons c cs ih => simp [strLt, charLt, ih]

theorem strLt_asymm : ∀ a b : Str, strLt a b = true → strLt b a = false := by
  intro a
  induction a with
  | nil => intro b h; cases b <;> simp_all [strLt]
  | cons c cs ih =>
    intro b h
    cases b with
    | nil => simp_all [strLt]
    | cons d ds =>
      simp only [strLt, charLt] at h ⊢
      by_cases h1 : c.toNat < d.toNat
      · have h2 : ¬ d.toNat < c.toNat := by omega
        simp [h1, h2]
      · by_cases h2 : d.toNat < c.toNat
        · simp [h1, h2] at h
        · simp only [h1, h2] at h ⊢
          simp only [decide_eq_true_eq, if_neg h1, if_neg h2] at h ⊢
          simp at h ⊢
          exact ih ds h

theorem strLt_ne : ∀ a b : Str, strLt a b = true → a ≠ b := by
  intro a b h hab
  subst hab
  rw [strLt_irrefl] at h
  exact Bool.false_ne_true h

theorem strLt_trans :
    ∀ a b c : Str, strLt a b = true → strLt b c = true → strLt a c = true := by
  intro a
  induction a with
  | nil =>
    intro b c hab hbc
    cases b with
    | nil => simp [strLt] at hab
    | cons d ds => cases c with
      | nil => simp [strLt] at hbc
      | cons e es => rfl
  | cons x xs ih =>
    intro b c hab hbc
    cases b with
    | nil => simp [strLt] at hab
    | cons y ys =>
      cases c with
      | nil => simp [strLt] at hbc
      | cons z zs =>
        simp only [strLt, charLt, decide_eq_true_eq] at hab hbc ⊢
        by_cases hxy : x.toNat < y.toNat
        · by_cases hyz : y.toNat < z.toNat
          · have hxz : x.toNat < z.toNat := by omega
            simp [hxz]
          · by_cases hzy : z.toNat < y.toNat
            · simp [hyz, hzy] at hbc
            · have hyz2 : y.toNat = z.toNat := by omega
              have hxz : x.toNat < z.toNat := by omega
              simp [hxz]
        · by_cases hyx : y.toNat < x.toNat
          · simp [hxy, hyx] at hab
          · have hxy2 : x.toNat = y.toNat := by omega
            by_cases hyz : y.toNat < z.toNat
            · have hxz : x.toNat < z.toNat := by omega
              simp [hxz]
            · by_cases hzy : z.toNat < y.toNat
              · simp [hyz, hzy] at hbc
              · have hxz1 : ¬ x.toNat < z.toNat := by omega
                have hxz2 : ¬ z.toNat < x.toNat := by omega
                simp only [if_neg hxy, if_neg hyx] at hab
                simp only [if_neg hyz, if_neg hzy] at hbc
                simp only [if_neg hxz1, if_neg hxz2]
                exact ih ys zs hab hbc

theorem strLe_of_strLt {a b : Str} (h : strLt a b = true) : strLe a b = true := by
  unfold strLe
  rw [strLt_asymm a b h]
  rfl

/-! ## InMemoryEventStore (src/inMemoryEventStore.ts) -/

/-- One stored event: the `streamId` recorded with it and the (opaque)
JSON-RPC message, modelled as a natural number. -/
structure EventRecord where
  streamId : Str
  message : Nat
deriving DecidableEq

/-- Insertion-ordered association list: the model of a JavaScript `Map`. -/
abbrev EventMap := List (Str × EventRecord)

/-- `Map.prototype.has`. -/
def hasKey {κ : Type} {ν : Type} [DecidableEq κ] (m : List (κ × ν)) (k : κ) : Bool :=
  m.any (fun p => decide (p.1 = k))

/-- `Map.prototype.set`: overwrite in place when the key exists, otherwise
append (JavaScript maps preserve insertion order). -/
def mapSet {κ : Type} {ν : Type} [DecidableEq κ] (m : List (κ × ν)) (k : κ) (v : ν) :
    List (κ × ν) :=
  if hasKey m k then m.map (fun p => if p.1 = k then (k, v) else p) else m ++ [(k, v)]

/-- `Map.prototype.get` as an option. -/
def lookup {κ : Type} {ν : Type} [DecidableEq κ] (m : List (κ × ν)) (k : κ) : Option ν :=
  (m.find? (fun p => decide (p.1 = k))).map (fun p => p.2)

/-- `Map.prototype.delete` (dropping the returned boolean). -/
def mapDelete {κ : Type} {ν : Type} [DecidableEq κ] (m : List (κ × ν)) (k : κ) :
    List (κ × ν) :=
  m.filter (fun p => !(decide (p.1 = k)))

/-- `generateEventId`: builds `streamId + "_" + Date.now() + "_" + <random
base-36 suffix>`; the clock value and the suffix are explicit arguments. -/
def generateEventId (streamId : Str) (now : Nat) (rand : Str) : Str :=
  streamId ++ '_' :: (Nat.toDigits 10 now ++ '_' :: rand)

/-- `getStreamIdFromEventId`: `eventId.split("_")[0]`, i.e. the prefix of
the id before the first underscore (the whole id when there is none). -/
def getStreamIdFromEventId (eventId : Str) : Str :=
  eventId.takeWhile (fun c => !(decide (c = '_')))

/-- `storeEvent`: generate an id, store the record, return the id. -/
def storeEvent (m : EventMap) (streamId : Str) (message : Nat) (now : Nat)
    (rand : Str) : EventMap × Str :=
  let eventId := generateEventId streamId now rand
  (mapSet m eventId ⟨streamId, message⟩, eventId)

/-- The comparator `(a, b) => a[0].localeCompare(b[0])` as a sort order on
map entries. -/
def eventIdLe (p q : Str × EventRecord) : Prop := strLe p.1 q.1 = true

instance : DecidableRel eventIdLe :=
  fun p q => inferInstanceAs (Decidable (strLe p.1 q.1 = true))

/-- `[...this.events.entries()].sort(...)`. -/
def sortEvents (m : EventMap) : EventMap := List.insertionSort eventIdLe m

/-- The replay loop of `replayEventsAfter`: walk the sorted entries, skip
other streams, flip the `foundLastEvent` flag at `lastEventId`, and collect
the `send(eventId, message)` calls in order after that. -/
def replayLoop (sid lastId : Str) : EventMap → Bool → List (Str × Nat)
  | [], _ => []
  | p :: rest, found =>
    if p.2.streamId ≠ sid then replayLoop sid lastId rest found
    else if p.1 = lastId then replayLoop sid lastId rest true
    else if found then (p.1, p.2.message) :: replayLoop sid lastId rest found
    else replayLoop sid lastId rest found

/-- `replayEventsAfter`: returns the resolved stream id together with the
sequence of `send` invocations (empty id and no sends on the early
returns). -/
def replayEventsAfter (m : EventMap) (lastId : Str) : Str × List (Str × Nat) :=
  if lastId = [] ∨ hasKey m lastId = false then ([], [])
  else if getStreamIdFromEventId lastId = [] then ([], [])
  else (getStreamIdFromEventId lastId,
    replayLoop (getStreamIdFromEventId lastId) lastId (sortEvents m) false)

/-- `clearStream`: delete every entry whose event id parses (by underscore
prefix) to the given stream id. -/
def clearStream (m : EventMap) (streamId : Str) : EventMap :=
  m.filter (fun p => !(decide (getStreamIdFromEventId p.1 = streamId)))

/-- `getEventCount`. -/
def getEventCount (m : EventMap) : Nat := m.length

/-- `getStreamEventCount`: counts by the `streamId` field stored in the
record. -/
def getStreamEventCount (m : EventMap) (streamId : Str) : Nat :=
  (m.filter (fun p => decide (p.2.streamId = streamId))).length

/-- Event-log states reachable through the store's mutating interface. -/
inductive ReachableEvents : EventMap → Prop
  | empty : ReachableEvents []
  | store {m : EventMap} (sid : Str) (msg now : Nat) (rand : Str) :
      ReachableEvents m → ReachableEvents (storeEvent m sid msg now rand).1
  | clear {m : EventMap} (sid : Str) :
      ReachableEvents m → ReachableEvents (clearStream m sid)

theorem takeWhile_no_underscore (sid rest : Str) (h : '_' ∉ sid) :
    (sid ++ '_' :: rest).takeWhile (fun c => !(decide (c = '_'))) = sid := by
  induction sid with
  | nil => simp
  | cons c cs ih =>
    have hc : ¬ c = '_' := fun hh => h (hh ▸ List.mem_cons_self c cs)
    have ih2 := ih (fun hm => h (List.mem_cons_of_mem _ hm))
    simp only [List.cons_append, List.takeWhile_cons]
    simp [hc, ih2]

theorem getStreamId_generateEventId (sid : Str) (now : Nat) (rand : Str)
    (h : '_' ∉ sid) :
    getStreamIdFromEventId (generateEventId sid now rand) = sid := by
  unfold getStreamIdFromEventId generateEventId
  exact takeWhile_no_underscore sid _ h

theorem generateEventId_ne_nil (sid : Str) (now : Nat) (rand : Str) :
    generateEventId sid now rand ≠ [] := by
  cases sid <;> simp [generateEventId]

/-- Store invariant: every stored key was produced by `generateEventId`
from the stream id recorded in its own value. -/
def WFEvents (m : EventMap) : Prop :=
  ∀ p ∈ m, ∃ now rand, p.1 = generateEventId p.2.streamId now rand

theorem reachable_wf {m : EventMap} (h : ReachableEvents m) : WFEvents m := by
  induction h with
  | empty => intro p hp; cases hp
  | store sid msg now rand _ ih =>
    intro p hp
    unfold storeEvent mapSet at hp
    simp only at hp
    split at hp
    · obtain ⟨q, hq, hpq⟩ := List.mem_map.mp hp
      by_cases hk : q.1 = generateEventId sid now rand
      · rw [if_pos hk] at hpq
        exact ⟨now, rand, by rw [← hpq]⟩
      · rw [if_neg hk] at hpq
        exact hpq ▸ ih q hq
    · rcases List.mem_append.mp hp with hl | hr
      · exact ih p hl
      · have hpe : p = (generateEventId sid now rand, ⟨sid, msg⟩) := by
          simpa using hr
        exact ⟨now, rand, by rw [hpe]⟩
  | clear sid _ ih =>
    intro p hp
    exact ih p (List.mem_of_mem_filter hp)

/-- Claim C7: replaying after an empty or unknown `lastEventId` returns the
empty result immediately, raises no error, and performs zero sends. -/
theorem replay_empty_or_unknown_returns_empty (m : EventMap) (lastId : Str)
    (h : lastId = [] ∨ hasKey m lastId = false) :
    replayEventsAfter m lastId = ([], []) := by
  unfold replayEventsAfter
  rw [if_pos h]

theorem replay_empty_or_unknown_returns_empty_check :
    hasKey (storeEvent [] ['s'] 1 2 ['a']).1 ['x'] = false ∧
      replayEventsAfter (storeEvent [] ['s'] 1 2 ['a']).1 ['x'] = ([], []) :=
  ⟨by decide, replay_empty_or_unknown_returns_empty _ _ (Or.inr (by decide))⟩

/-- Claim C4 (amended): `replayEventsAfter` on a stored event id returns
the underscore-prefix of that id; whenever the owning stream id is
nonempty and contains no underscore this is exactly the stream id stored
with the record, even when zero events follow it. -/
theorem replay_returns_owning_stream (m : EventMap) (r : EventRecord)
    (now : Nat) (rand : Str)
    (hmem : (generateEventId r.streamId now rand, r) ∈ m)
    (hU : '_' ∉ r.streamId) (hne : r.streamId ≠ []) :
    (replayEventsAfter m (generateEventId r.streamId now rand)).1 =
      r.streamId := by
  have hkey : hasKey m (generateEventId r.streamId now rand) = true := by
    unfold hasKey
    rw [List.any_eq_true]
    exact ⟨_, hmem, by simp⟩
  unfold replayEventsAfter
  rw [if_neg (by
    rw [not_or]
    exact ⟨generateEventId_ne_nil _ _ _, by simp [hkey]⟩)]
  simp only [getStreamId_generateEventId _ _ _ hU]
  rw [if_neg hne]

theorem replay_returns_owning_stream_check :
    (replayEventsAfter (storeEvent [] ['s'] 9 3 ['a']).1
        (generateEventId ['s'] 3 ['a'])).1 = ['s'] :=
  replay_returns_owning_stream _ ⟨['s'], 9⟩ 3 ['a'] (by decide) (by decide)
    (by decide)

/-- Claim C4 fails as stated: for the stream id `a_b` (which contains the
separator), replay returns the parsed prefix `a`, not the stream id stored
with the record. -/
theorem replay_returns_wrong_stream_on_underscore :
    ReachableEvents (storeEvent [] ['a', '_', 'b'] 7 1 ['r']).1 ∧
      (replayEventsAfter (storeEvent [] ['a', '_', 'b'] 7 1 ['r']).1
          (generateEventId ['a', '_', 'b'] 1 ['r'])).1 = ['a'] ∧
      (['a'] : Str) ≠ ['a', '_', 'b'] :=
  ⟨.store _ _ _ _ .empty, by decide, by decide⟩

/-- Claim C3 (amended): for a stream id without the underscore separator,
`clearStream` removes every record of that stream from any reachable log
state, and `getStreamEventCount` then reports zero. -/
theorem clearStream_deletes_stream (m : EventMap) (sid : Str)
    (hr : ReachableEvents m) (hU : '_' ∉ sid) :
    getStreamEventCount (clearStream m sid) sid = 0 ∧
      ∀ p ∈ clearStream m sid, p.2.streamId ≠ sid := by
  have hall : ∀ p ∈ clearStream m sid, p.2.streamId ≠ sid := by
    intro p hp hps
    have hpm := List.mem_of_mem_filter hp
    obtain ⟨now, rand, hid⟩ := reachable_wf hr p hpm
    rw [hps] at hid
    have hkeep := List.of_mem_filter hp
    rw [hid, getStreamId_generateEventId _ _ _ hU] at hkeep
    simp at hkeep
  refine ⟨?_, hall⟩
  unfold getStreamEventCount
  rw [List.length_eq_zero, List.filter_eq_nil_iff]
  intro p hp
  simp [hall p hp]

theorem clearStream_deletes_stream_check :
    getStreamEventCount
        (clearStream
          (storeEvent (storeEvent [] ['s'] 1 5 ['a']).1 ['t'] 2 6 ['b']).1
          ['s'])
        ['s'] = 0 :=
  (clearStream_deletes_stream _ _ (.store _ _ _ _ (.store _ _ _ _ .empty))
    (by decide)).1

/-- Claim C3 fails as stated: clearing the stream `a_b` (whose id contains
the separator) deletes nothing, and the stream still counts one event. -/
theorem clearStream_misses_underscore_stream :
    ReachableEvents (storeEvent [] ['a', '_', 'b'] 7 1 ['r']).1 ∧
      getStreamEventCount
          (clearStream (storeEvent [] ['a', '_', 'b'] 7 1 ['r']).1
            ['a', '_', 'b'])
          ['a', '_', 'b'] = 1 :=
  ⟨.store _ _ _ _ .empty, by decide⟩

/-- Claim C10 (amended): `clearStream s` keeps every record of a different
stream whose own stream id contains no underscore; in general it keeps
exactly the records whose event-id prefix differs from `s`. -/
theorem clearStream_frame (m : EventMap) (sid : Str) (p : Str × EventRecord)
    (hr : ReachableEvents m) (hp : p ∈ m) (hne : p.2.streamId ≠ sid)
    (hU : '_' ∉ p.2.streamId) : p ∈ clearStream m sid := by
  obtain ⟨now, rand, hid⟩ := reachable_wf hr p hp
  refine List.mem_filter.mpr ⟨hp, ?_⟩
  rw [hid, getStreamId_generateEventId _ _ _ hU]
  simp [hne]

theorem clearStream_frame_check :
    (generateEventId ['t'] 6 ['b'], (⟨['t'], 2⟩ : EventRecord)) ∈
      clearStream
        (storeEvent (storeEvent [] ['s'] 1 5 ['a']).1 ['t'] 2 6 ['b']).1
        ['s'] :=
  clearStream_frame _ _ _ (.store _ _ _ _ (.store _ _ _ _ .empty))
    (by decide) (by decide) (by decide)

/-- Claim C10 fails as stated: clearing stream `a` also deletes the record
of the distinct stream `a_b`, because that record's event id parses to the
prefix `a`. -/
theorem clearStream_deletes_other_stream :
    ReachableEvents (storeEvent [] ['a', '_', 'b'] 7 1 ['r']).1 ∧
      (generateEventId ['a', '_', 'b'] 1 ['r'],
          (⟨['a', '_', 'b'], 7⟩ : EventRecord)) ∈
        (storeEvent [] ['a', '_', 'b'] 7 1 ['r']).1 ∧
      (⟨['a', '_', 'b'], 7⟩ : EventRecord).streamId ≠ ['a'] ∧
      (generateEventId ['a', '_', 'b'] 1 ['r'],
          (⟨['a', '_', 'b'], 7⟩ : EventRecord)) ∉
        clearStream (storeEvent [] ['a', '_', 'b'] 7 1 ['r']).1 ['a'] :=
  ⟨.store _ _ _ _ .empty, by decide, by decide, by decide⟩

theorem mapSet_of_fresh {κ : Type} {ν : Type} [DecidableEq κ]
    (m : List (κ × ν)) (k : κ) (v : ν) (h : hasKey m k = false) :
    mapSet m k v = m ++ [(k, v)] := by
  simp [mapSet, h]

/-- Claim C1 (amended): for distinct streams `S` (nonempty, no underscore)
and `T`, with the four generated ids pairwise distinct and the three `S`
ids lexicographically ascending — which the generator only guarantees when
the clock strictly advances between appends with equal-width timestamps —
replaying after `e1` sends exactly the record of `e2` and then the record
of `e3`, in that order, never the record of `f1`, and returns `S`. -/
theorem replay_after_sends_exactly_later_stream_events
    (S T r1 r2 r3 rT : Str) (n1 n2 n3 nT mA mB mC mD : Nat)
    (hU : '_' ∉ S) (hS : S ≠ []) (hST : S ≠ T)
    (h12 : strLt (generateEventId S n1 r1) (generateEventId S n2 r2) = true)
    (h23 : strLt (generateEventId S n2 r2) (generateEventId S n3 r3) = true)
    (hf1 : generateEventId T nT rT ≠ generateEventId S n1 r1)
    (hf2 : generateEventId T nT rT ≠ generateEventId S n2 r2)
    (hf3 : generateEventId T nT rT ≠ generateEventId S n3 r3) :
    replayEventsAfter
        (storeEvent (storeEvent (storeEvent (storeEvent [] S mA n1 r1).1
            S mB n2 r2).1 S mC n3 r3).1 T mD nT rT).1
        (generateEventId S n1 r1) =
      (S, [(generateEventId S n2 r2, mB), (generateEventId S n3 r3, mC)]) := by
  have ne12 : generateEventId S n1 r1 ≠ generateEventId S n2 r2 :=
    strLt_ne _ _ h12
  have ne23 : generateEventId S n2 r2 ≠ generateEventId S n3 r3 :=
    strLt_ne _ _ h23
  have h13 := strLt_trans _ _ _ h12 h23
  have ne13 : generateEventId S n1 r1 ≠ generateEventId S n3 r3 :=
    strLt_ne _ _ h13
  have hm : (storeEvent (storeEvent (storeEvent (storeEvent [] S mA n1 r1).1
      S mB n2 r2).1 S mC n3 r3).1 T mD nT rT).1 =
      [(generateEventId S n1 r1, ⟨S, mA⟩), (generateEventId S n2 r2, ⟨S, mB⟩),
        (generateEventId S n3 r3, ⟨S, mC⟩), (generateEventId T nT rT, ⟨T, mD⟩)] := by
    simp [storeEvent, mapSet, hasKey, ne12, ne13, ne23,
      Ne.symm hf1, Ne.symm hf2, Ne.symm hf3]
  rw [hm]
  unfold replayEventsAfter
  rw [if_neg (by
    rw [not_or]
    refine ⟨generateEventId_ne_nil _ _ _, ?_⟩
    simp [hasKey])]
  simp only [getStreamId_generateEventId S n1 r1 hU]
  rw [if_neg hS]
  simp only [Prod.mk.injEq, true_and]
  have hTS : T ≠ S := Ne.symm hST
  have n21 : generateEventId S n2 r2 ≠ generateEventId S n1 r1 := Ne.symm ne12
  have n31 : generateEventId S n3 r3 ≠ generateEventId S n1 r1 := Ne.symm ne13
  cases hb3 : strLe (generateEventId S n3 r3) (generateEventId T nT rT) with
  | false =>
    cases hb2 : strLe (generateEventId S n2 r2) (generateEventId T nT rT) with
    | false =>
      cases hb1 : strLe (generateEventId S n1 r1) (generateEventId T nT rT) with
      | false =>
        simp [sortEvents, List.insertionSort, List.orderedInsert, eventIdLe,
          replayLoop, hb3, hb2, hb1, strLe_of_strLt h12, strLe_of_strLt h23,
          strLe_of_strLt h13, hTS, n21, n31]
      | true =>
        simp [sortEvents, List.insertionSort, List.orderedInsert, eventIdLe,
          replayLoop, hb3, hb2, hb1, strLe_of_strLt h12, strLe_of_strLt h23,
          strLe_of_strLt h13, hTS, n21, n31]
    | true =>
      simp [sortEvents, List.insertionSort, List.orderedInsert, eventIdLe,
        replayLoop, hb3, hb2, strLe_of_strLt h12, strLe_of_strLt h23,
        strLe_of_strLt h13, hTS, n21, n31]
  | true =>
    simp [sortEvents, List.insertionSort, List.orderedInsert, eventIdLe,
      replayLoop, hb3, strLe_of_strLt h12, strLe_of_strLt h23,
      strLe_of_strLt h13, hTS, n21, n31]

theorem replay_after_sends_check :
    replayEventsAfter
        (storeEvent (storeEvent (storeEvent (storeEvent [] ['s'] 1 1 ['a']).1
            ['s'] 2 2 ['a']).1 ['s'] 3 3 ['a']).1 ['t'] 4 1 ['a']).1
        (generateEventId ['s'] 1 ['a']) =
      (['s'], [(generateEventId ['s'] 2 ['a'], 2),
        (generateEventId ['s'] 3 ['a'], 3)]) :=
  replay_after_sends_exactly_later_stream_events ['s'] ['t'] ['a'] ['a'] ['a']
    ['a'] 1 2 3 1 1 2 3 4 (by decide) (by decide) (by decide) (by decide)
    (by decide) (by decide) (by decide) (by decide)

/-- Claim C1 fails as stated: when the three appends to stream `s` share
one clock value, the random suffixes decide the lexicographic order
(`s_5_b`, `s_5_c`, `s_5_a`), and replay after the first append sends only
the second record — not the second then the third in append order. -/
theorem replay_reorders_on_timestamp_tie :
    replayEventsAfter
        (storeEvent (storeEvent (storeEvent (storeEvent [] ['s'] 1 5 ['b']).1
            ['s'] 2 5 ['c']).1 ['s'] 3 5 ['a']).1 ['t'] 4 5 ['z']).1
        (generateEventId ['s'] 5 ['b']) =
      (['s'], [(generateEventId ['s'] 5 ['c'], 2)]) ∧
    replayEventsAfter
        (storeEvent (storeEvent (storeEvent (storeEvent [] ['s'] 1 5 ['b']).1
            ['s'] 2 5 ['c']).1 ['s'] 3 5 ['a']).1 ['t'] 4 5 ['z']).1
        (generateEventId ['s'] 5 ['b']) ≠
      (['s'], [(generateEventId ['s'] 5 ['c'], 2),
        (generateEventId ['s'] 5 ['a'], 3)]) := by
  constructor
  · decide
  · decide

/-! ## DynamicGitLabConfigManager (src/inMemoryEventStore.ts) -/

/-- The configuration record produced by `DynamicConfigSchema`. -/
structure DynamicConfig where
  api_url : String
  access_token : String
  project_id : Option String
  read_only : String
  use_wiki : String
  use_milestone : String
  use_pipeline : String
deriving DecidableEq

/-- Untyped query-parameter input: a string-keyed mapping. -/
abbrev Params := List (String × String)

def lookupParam (qp : Params) (k : String) : Option String :=
  (qp.find? (fun p => decide (p.1 = k))).map (fun p => p.2)

def startsWithChars : Str → Str → Bool
  | [], _ => true
  | _ :: _, [] => false
  | c :: cs, d :: ds => decide (c = d) && startsWithChars cs ds

/-- Modelled from the spec: URL validation is delegated to the external
zod library (`z.string().url()`), which is not part of this repository;
the spec asks for a valid absolute URL, modelled as an http or https
scheme. -/
def isValidUrl (s : String) : Bool :=
  startsWithChars "http://".toList s.toList ||
    startsWithChars "https://".toList s.toList

/-- Issues raised by one optional `z.enum(["true", "false"])` toggle. -/
def toggleIssues (qp : Params) (name : String) : List (String × String) :=
  match lookupParam qp name with
  | none => []
  | some v =>
    if v = "true" ∨ v = "false" then [] else [(name, "Invalid enum value")]

def toggleValue (qp : Params) (name : String) : String :=
  (lookupParam qp name).getD "false"

/-- All issues collected by `DynamicConfigSchema.parse`; zod validates
every field of an object schema and aggregates the issues. -/
def configIssues (qp : Params) : List (String × String) :=
  (match lookupParam qp "api_url" with
    | none => [("api_url", "Required")]
    | some v =>
      if isValidUrl v then [] else [("api_url", "Invalid GitLab API URL")]) ++
  (match lookupParam qp "access_token" with
    | none => [("access_token", "Required")]
    | some v =>
      if v = "" then [("access_token", "Access token is required")] else []) ++
  toggleIssues qp "read_only" ++ toggleIssues qp "use_wiki" ++
  toggleIssues qp "use_milestone" ++ toggleIssues qp "use_pipeline"

/-- `DynamicConfigSchema.parse`: all issues or the normalized record with
defaults applied. -/
def parseConfig (qp : Params) : Except (List (String × String)) DynamicConfig :=
  match configIssues qp with
  | [] => .ok
    { api_url := (lookupParam qp "api_url").getD ""
      access_token := (lookupParam qp "access_token").getD ""
      project_id := lookupParam qp "project_id"
      read_only := toggleValue qp "read_only"
      use_wiki := toggleValue qp "use_wiki"
      use_milestone := toggleValue qp "use_milestone"
      use_pipeline := toggleValue qp "use_pipeline" }
  | issues => .error issues

/-- A stored session record. -/
structure SessionConfig where
  sessionId : String
  config : DynamicConfig
  createdAt : Nat
  lastUsed : Nat
deriving DecidableEq

/-- `error.errors.map(e => path + ": " + message).join(", ")`. -/
def joinIssues : List (String × String) → String
  | [] => ""
  | [i] => i.1 ++ ": " ++ i.2
  | i :: rest => i.1 ++ ": " ++ i.2 ++ ", " ++ joinIssues rest

abbrev Sessions := List (String × SessionConfig)

/-- The comparator `(a, b) => a.lastUsed - b.lastUsed`. -/
def lastUsedLe (p q : String × SessionConfig) : Prop :=
  p.2.lastUsed ≤ q.2.lastUsed

instance : DecidableRel lastUsedLe :=
  fun p q => inferInstanceAs (Decidable (p.2.lastUsed ≤ q.2.lastUsed))

instance : IsTotal (String × SessionConfig) lastUsedLe :=
  ⟨fun a b => Nat.le_total a.2.lastUsed b.2.lastUsed⟩

instance : IsTrans (String × SessionConfig) lastUsedLe :=
  ⟨fun _ _ _ h1 h2 => Nat.le_trans h1 h2⟩

def keyMem (k : String) (ks : List String) : Bool :=
  ks.any (fun x => decide (x = k))

/-- `cleanupOldestSessions(count)`: sort ascending by `lastUsed`, slice the
first `count` entries, delete each of those session ids (deleting a set of
keys from a map keeps the remaining entries in order). -/
def cleanupOldestSessions (m : Sessions) (count : Nat) : Sessions :=
  m.filter (fun p =>
    !(keyMem p.1
      (((List.insertionSort lastUsedLe m).take count).map (fun q => q.1))))

/-- `cleanupExpiredSessions`: the periodic sweep deletes every entry whose
idle age strictly exceeds the timeout. -/
def cleanupExpiredSessions (tm : Nat) (m : Sessions) (now : Nat) : Sessions :=
  m.filter (fun p => !(decide (now - p.2.lastUsed > tm)))

/-- `createSessionConfig`: validate; on failure rethrow the formatted
message with the map untouched; on success, when at capacity evict
`Math.floor(maxSessions * 0.1)` (equal to `maxSessions / 10` in natural
division for representable capacities) oldest entries, then insert. -/
def createSessionConfig (maxSessions : Nat) (m : Sessions) (sid : String)
    (qp : Params) (now : Nat) : Sessions × Except String SessionConfig :=
  match parseConfig qp with
  | .error issues =>
    (m, .error ("Invalid configuration parameters: " ++ joinIssues issues))
  | .ok cfg =>
    (mapSet
        (if m.length ≥ maxSessions then
          cleanupOldestSessions m (maxSessions / 10)
        else m)
        sid ⟨sid, cfg, now, now⟩,
      .ok ⟨sid, cfg, now, now⟩)

/-- `getSessionConfig`: absent gives `none`; an entry idle strictly longer
than the timeout is deleted and `none` returned; otherwise `lastUsed` is
refreshed to `now` and the refreshed record returned. -/
def getSessionConfig (tm : Nat) (m : Sessions) (sid : String) (now : Nat) :
    Sessions × Option SessionConfig :=
  match lookup m sid with
  | none => (m, none)
  | some s =>
    if now - s.lastUsed > tm then (mapDelete m sid, none)
    else (mapSet m sid { s with lastUsed := now },
      some { s with lastUsed := now })

def getActiveSessionCount (m : Sessions) : Nat := m.length

/-- Claim C5: when validation fails, `createSessionConfig` raises the
error whose message joins every offending field (path and message, all of
them), and the registry map is returned unchanged. -/
theorem create_invalid_enumerates_and_preserves_state
    (maxSessions : Nat) (m : Sessions) (sid : String) (qp : Params)
    (now : Nat) (issues : List (String × String))
    (hbad : parseConfig qp = .error issues) :
    createSessionConfig maxSessions m sid qp now =
      (m, .error ("Invalid configuration parameters: " ++ joinIssues issues)) := by
  unfold createSessionConfig
  simp only [hbad]

theorem create_invalid_enumerates_and_preserves_state_check :
    parseConfig [] =
      .error [("api_url", "Required"), ("access_token", "Required")] ∧
    createSessionConfig 1000 [] "s" [] 0 =
      ([], .error ("Invalid configuration parameters: " ++
        joinIssues [("api_url", "Required"), ("access_token", "Required")])) :=
  ⟨rfl, create_invalid_enumerates_and_preserves_state 1000 [] "s" [] 0 _ rfl⟩

theorem nodup_key_unique {κ ν : Type} [DecidableEq κ] {m : List (κ × ν)}
    (hnd : (m.map (fun p => p.1)).Nodup) {p q : κ × ν}
    (hp : p ∈ m) (hq : q ∈ m) (hk : p.1 = q.1) : p = q := by
  induction m with
  | nil => cases hp
  | cons a l ih =>
    rw [List.map_cons, List.nodup_cons] at hnd
    rcases List.mem_cons.mp hp with rfl | hp2
    · rcases List.mem_cons.mp hq with rfl | hq2
      · rfl
      · exfalso
        apply hnd.1
        rw [hk]
        exact List.mem_map_of_mem _ hq2
    · rcases List.mem_cons.mp hq with rfl | hq2
      · exfalso
        apply hnd.1
        rw [← hk]
        exact List.mem_map_of_mem _ hp2
      · exact ih hnd.2 hp2 hq2

theorem lookup_mem {κ ν : Type} [DecidableEq κ] {m : List (κ × ν)} {k : κ}
    {v : ν} (h : lookup m k = some v) : (k, v) ∈ m := by
  unfold lookup at h
  cases hf : m.find? (fun p => decide (p.1 = k)) with
  | none => rw [hf] at h; cases h
  | some p =>
    rw [hf] at h
    have hpm := List.mem_of_find?_eq_some hf
    have hpk := List.find?_some hf
    simp only [Option.map_some', Option.some.injEq] at h
    simp only [decide_eq_true_eq] at hpk
    have : p = (k, v) := by
      cases p
      simp only [Prod.mk.injEq]
      exact ⟨hpk, h⟩
    rw [← this]
    exact hpm

/-- Claim C6: a present session whose idle age strictly exceeds the
timeout is deleted by `getSessionConfig` and not returned, and the
periodic sweep also removes it; otherwise the record is returned with
`lastUsed` refreshed to `now`. -/
theorem get_expires_or_refreshes (tm : Nat) (m : Sessions) (sid : String)
    (now : Nat) (s : SessionConfig)
    (hnd : (m.map (fun p => p.1)).Nodup)
    (hs : lookup m sid = some s) :
    (now - s.lastUsed > tm →
      getSessionConfig tm m sid now = (mapDelete m sid, none) ∧
      lookup (mapDelete m sid) sid = none ∧
      lookup (cleanupExpiredSessions tm m now) sid = none) ∧
    (¬ now - s.lastUsed > tm →
      getSessionConfig tm m sid now =
        (mapSet m sid { s with lastUsed := now },
          some { s with lastUsed := now })) := by
  constructor
  · intro hexp
    refine ⟨?_, ?_, ?_⟩
    · unfold getSessionConfig
      rw [hs]
      show (if now - s.lastUsed > tm then (mapDelete m sid, none)
        else (mapSet m sid { s with lastUsed := now },
          some { s with lastUsed := now })) = (mapDelete m sid, none)
      rw [if_pos hexp]
    · unfold lookup mapDelete
      rw [Option.map_eq_none', List.find?_eq_none]
      intro x hx
      have hkeep := List.of_mem_filter hx
      simp only [Bool.not_eq_eq_eq_not, Bool.not_true, decide_eq_false_iff_not] at hkeep
      simp [hkeep]
    · unfold lookup cleanupExpiredSessions
      rw [Option.map_eq_none', List.find?_eq_none]
      intro x hx
      have hxm := List.mem_of_mem_filter hx
      have hkeep := List.of_mem_filter hx
      simp only [Bool.not_eq_eq_eq_not, Bool.not_true, decide_eq_false_iff_not] at hkeep
      simp only [decide_eq_true_eq]
      intro hxk
      have hxeq : x = (sid, s) :=
        nodup_key_unique hnd hxm (lookup_mem hs) hxk
      rw [hxeq] at hkeep
      exact hkeep hexp
  · intro hnot
    unfold getSessionConfig
    rw [hs]
    show (if now - s.lastUsed > tm then (mapDelete m sid, none)
      else (mapSet m sid { s with lastUsed := now },
        some { s with lastUsed := now })) =
      (mapSet m sid { s with lastUsed := now },
        some { s with lastUsed := now })
    rw [if_neg hnot]

theorem get_expires_or_refreshes_check :
    getSessionConfig 10
        [("a", ⟨"a", ⟨"u", "t", none, "false", "false", "false", "false"⟩, 0, 0⟩)]
        "a" 100 =
      (mapDelete
        [("a", ⟨"a", ⟨"u", "t", none, "false", "false", "false", "false"⟩, 0, 0⟩)]
        "a", none) :=
  ((get_expires_or_refreshes 10 _ "a" 100
    ⟨"a", ⟨"u", "t", none, "false", "false", "false", "false"⟩, 0, 0⟩
    (by decide) (by decide)).1 (by decide)).1

theorem length_filter_compl {α : Type} (l : List α) (p : α → Bool) :
    (l.filter p).length + (l.filter (fun a => !(p a))).length = l.length := by
  induction l with
  | nil => rfl
  | cons a t ih =>
    cases h : p a
    · simp [List.filter_cons, h]
      omega
    · simp [List.filter_cons, h]
      omega

/-- Claim C2 (amended): a valid create at capacity first evicts exactly
`Math.floor(0.1 * max)` entries — the code uses floor, not ceil — and the
evicted entries all have `lastUsed` at most that of every surviving entry;
the new record is then inserted into the cleaned map. -/
theorem create_at_capacity_evicts_floor_tenth_oldest
    (maxSessions : Nat) (m : Sessions) (sid : String) (qp : Params)
    (now : Nat) (cfg : DynamicConfig)
    (hnd : (m.map (fun p => p.1)).Nodup)
    (hok : parseConfig qp = .ok cfg)
    (hcap : m.length ≥ maxSessions) :
    createSessionConfig maxSessions m sid qp now =
      (mapSet (cleanupOldestSessions m (maxSessions / 10)) sid
          ⟨sid, cfg, now, now⟩,
        .ok ⟨sid, cfg, now, now⟩) ∧
    (cleanupOldestSessions m (maxSessions / 10)).length =
      m.length - maxSessions / 10 ∧
    (∀ p ∈ m, p ∉ cleanupOldestSessions m (maxSessions / 10) →
      ∀ q ∈ cleanupOldestSessions m (maxSessions / 10),
        p.2.lastUsed ≤ q.2.lastUsed) := by
  have hc : maxSessions / 10 ≤ m.length :=
    le_trans (Nat.div_le_self _ _) hcap
  have hperm : List.Perm (List.insertionSort lastUsedLe m) m :=
    List.perm_insertionSort lastUsedLe m
  have hsorted : (List.insertionSort lastUsedLe m).Sorted lastUsedLe :=
    List.sorted_insertionSort lastUsedLe m
  have hlen : (List.insertionSort lastUsedLe m).length = m.length :=
    hperm.length_eq
  have hsplit :
      (List.insertionSort lastUsedLe m).take (maxSessions / 10) ++
        (List.insertionSort lastUsedLe m).drop (maxSessions / 10) =
      List.insertionSort lastUsedLe m :=
    List.take_append_drop _ _
  have hndsorted :
      ((List.insertionSort lastUsedLe m).map (fun p => p.1)).Nodup :=
    (hperm.map (fun p => p.1)).nodup_iff.mpr hnd
  have htake : ∀ p ∈ (List.insertionSort lastUsedLe m).take (maxSessions / 10),
      keyMem p.1
        (((List.insertionSort lastUsedLe m).take (maxSessions / 10)).map
          (fun q => q.1)) = true := by
    intro p hp
    unfold keyMem
    rw [List.any_eq_true]
    exact ⟨p.1, List.mem_map_of_mem _ hp, by simp⟩
  have hdisj : ∀ q ∈ (List.insertionSort lastUsedLe m).drop (maxSessions / 10),
      keyMem q.1
        (((List.insertionSort lastUsedLe m).take (maxSessions / 10)).map
          (fun p => p.1)) = false := by
    intro q hq
    have hndapp :
        ((((List.insertionSort lastUsedLe m).take (maxSessions / 10)).map
            (fun p => p.1)) ++
          (((List.insertionSort lastUsedLe m).drop (maxSessions / 10)).map
            (fun p => p.1))).Nodup := by
      rw [← List.map_append, hsplit]
      exact hndsorted
    have hdis := (List.nodup_append.mp hndapp).2.2
    unfold keyMem
    rw [List.any_eq_false]
    intro x hx
    simp only [decide_eq_true_eq]
    intro hxq
    exact hdis (hxq ▸ hx) (List.mem_map_of_mem _ hq)
  have hmemdrop : ∀ q ∈ m,
      keyMem q.1
        (((List.insertionSort lastUsedLe m).take (maxSessions / 10)).map
          (fun p => p.1)) = false →
      q ∈ (List.insertionSort lastUsedLe m).drop (maxSessions / 10) := by
    intro q hq hkm
    have hqs : q ∈ List.insertionSort lastUsedLe m := hperm.mem_iff.mpr hq
    rw [← hsplit] at hqs
    rcases List.mem_append.mp hqs with h1 | h2
    · rw [htake q h1] at hkm; cases hkm
    · exact h2
  have hmemtake : ∀ p ∈ m,
      keyMem p.1
        (((List.insertionSort lastUsedLe m).take (maxSessions / 10)).map
          (fun q => q.1)) = true →
      p ∈ (List.insertionSort lastUsedLe m).take (maxSessions / 10) := by
    intro p hp hkm
    have hps : p ∈ List.insertionSort lastUsedLe m := hperm.mem_iff.mpr hp
    rw [← hsplit] at hps
    rcases List.mem_append.mp hps with h1 | h2
    · exact h1
    · rw [hdisj p h2] at hkm; cases hkm
  refine ⟨?_, ?_, ?_⟩
  · unfold createSessionConfig
    simp only [hok]
    rw [if_pos hcap]
  · have hcount :
        (m.filter (fun p =>
          keyMem p.1
            (((List.insertionSort lastUsedLe m).take (maxSessions / 10)).map
              (fun q => q.1)))).length = maxSessions / 10 := by
      have hfeq :
          List.filter (fun p =>
            keyMem p.1
              (((List.insertionSort lastUsedLe m).take (maxSessions / 10)).map
                (fun q => q.1)))
            ((List.insertionSort lastUsedLe m).take (maxSessions / 10) ++
              (List.insertionSort lastUsedLe m).drop (maxSessions / 10)) =
          List.filter (fun p =>
            keyMem p.1
              (((List.insertionSort lastUsedLe m).take (maxSessions / 10)).map
                (fun q => q.1)))
            (List.insertionSort lastUsedLe m) := by
        rw [hsplit]
      rw [← (hperm.filter _).length_eq, ← hfeq]
      rw [List.filter_append]
      rw [List.filter_eq_self.mpr htake]
      rw [List.filter_eq_nil_iff.mpr (by
        intro a ha
        rw [hdisj a ha]
        simp)]
      rw [List.append_nil, List.length_take, hlen]
      exact Nat.min_eq_left hc
    have hfl := length_filter_compl m (fun p =>
      keyMem p.1
        (((List.insertionSort lastUsedLe m).take (maxSessions / 10)).map
          (fun q => q.1)))
    unfold cleanupOldestSessions
    omega
  · intro p hp hpn q hq
    have hqm := List.mem_of_mem_filter hq
    have hqkeep := List.of_mem_filter hq
    simp only [Bool.not_eq_eq_eq_not, Bool.not_true] at hqkeep
    have hqdrop := hmemdrop q hqm hqkeep
    have hpk : keyMem p.1
        (((List.insertionSort lastUsedLe m).take (maxSessions / 10)).map
          (fun q => q.1)) = true := by
      by_contra hpk2
      have hpk3 : keyMem p.1
          (((List.insertionSort lastUsedLe m).take (maxSessions / 10)).map
            (fun q => q.1)) = false := by
        revert hpk2; cases keyMem p.1 _ <;> simp
      exact hpn (List.mem_filter.mpr ⟨hp, by rw [hpk3]; rfl⟩)
    have hptake := hmemtake p hp hpk
    have hpair :=
      (List.pairwise_append.mp (hsplit ▸ hsorted)).2.2
    exact hpair p hptake q hqdrop

def qpOk : Params := [("api_url", "http://g"), ("access_token", "t")]

def cfgOk : DynamicConfig :=
  ⟨"http://g", "t", none, "false", "false", "false", "false"⟩

def sessEntry (k : String) (lu : Nat) : String × SessionConfig :=
  (k, ⟨k, cfgOk, 0, lu⟩)

def mC2 : Sessions :=
  [sessEntry "a" 5, sessEntry "b" 1, sessEntry "c" 9, sessEntry "d" 3,
    sessEntry "e" 7, sessEntry "f" 2, sessEntry "g" 8, sessEntry "h" 4,
    sessEntry "i" 6, sessEntry "j" 0]

theorem create_at_capacity_evicts_floor_tenth_oldest_check :
    (cleanupOldestSessions mC2 (10 / 10)).length = mC2.length - 10 / 10 :=
  (create_at_capacity_evicts_floor_tenth_oldest 10 mC2 "k" qpOk 7 cfgOk
    (by decide) rfl (by decide)).2.1

def mC5 : Sessions :=
  [sessEntry "a" 5, sessEntry "b" 1, sessEntry "c" 9, sessEntry "d" 3,
    sessEntry "e" 7]

/-- Claim C2 fails as stated: at capacity 5 the code computes
`Math.floor(0.5) = 0` eviction candidates (the claim demands
`ceil(0.5) = 1`), so a valid create deletes nothing and the map grows to
six entries with every old record still present. -/
theorem create_with_floor_zero_evicts_nothing :
    createSessionConfig 5 mC5 "k" qpOk 7 =
      (mC5 ++ [("k", ⟨"k", cfgOk, 7, 7⟩)], .ok ⟨"k", cfgOk, 7, 7⟩) ∧
    ((createSessionConfig 5 mC5 "k" qpOk 7).1).length = 6 :=
  ⟨rfl, rfl⟩

/-! ## SessionAwareGitLabClient and SessionClientManager -/

/-- A client instance: bound at construction to one session record and
never rebound (`this.sessionConfig` is set only in the constructor). -/
structure GitLabClient where
  boundConfig : SessionConfig
deriving DecidableEq

/-- JavaScript string `||`: the left operand unless it is falsy (empty). -/
def jsOr (a b : String) : String := if a = "" then b else a

/-- `getEffectiveProjectId`:
`requestProjectId || this.sessionConfig.config.project_id || ""`, with an
absent optional modelled as the falsy empty string. -/
def getEffectiveProjectId (c : GitLabClient)
    (requestProjectId : Option String) : String :=
  jsOr (jsOr (requestProjectId.getD "")
    (c.boundConfig.config.project_id.getD "")) ""

abbrev ClientPool := List (String × GitLabClient)

/-- `getClient`: return the cached client for the record's session id,
constructing and caching one bound to the given record only when absent. -/
def getClient (pool : ClientPool) (sc : SessionConfig) :
    ClientPool × GitLabClient :=
  match lookup pool sc.sessionId with
  | some c => (pool, c)
  | none => (mapSet pool sc.sessionId ⟨sc⟩, ⟨sc⟩)

/-- `removeClient`. -/
def removeClient (pool : ClientPool) (sid : String) : ClientPool × Bool :=
  (mapDelete pool sid, hasKey pool sid)

/-- `clearAll`. -/
def clearAllClients (_pool : ClientPool) : ClientPool := []

theorem lookup_append_self {κ ν : Type} [DecidableEq κ] (m : List (κ × ν))
    (k : κ) (v : ν) (h : hasKey m k = false) :
    lookup (m ++ [(k, v)]) k = some v := by
  induction m with
  | nil => simp [lookup, List.find?]
  | cons a t ih =>
    have h2 : decide (a.1 = k) = false ∧ hasKey t k = false := by
      unfold hasKey at h ⊢
      rw [List.any_cons, Bool.or_eq_false_iff] at h
      exact h
    unfold lookup
    rw [List.cons_append, List.find?_cons, h2.1]
    exact ih h2.2

theorem lookup_map_replace {κ ν : Type} [DecidableEq κ] (m : List (κ × ν))
    (k : κ) (v : ν) (h : hasKey m k = true) :
    lookup (m.map (fun p => if p.1 = k then (k, v) else p)) k = some v := by
  induction m with
  | nil => simp [hasKey] at h
  | cons a t ih =>
    by_cases hak : a.1 = k
    · unfold lookup
      rw [List.map_cons, if_pos hak, List.find?_cons]
      simp
    · have ht : hasKey t k = true := by
        unfold hasKey at h ⊢
        rw [List.any_cons] at h
        revert h
        simp [hak]
      unfold lookup
      rw [List.map_cons, if_neg hak, List.find?_cons]
      have : (decide (a.1 = k)) = false := by simp [hak]
      rw [this]
      exact ih ht

theorem lookup_mapSet_self {κ ν : Type} [DecidableEq κ] (m : List (κ × ν))
    (k : κ) (v : ν) : lookup (mapSet m k v) k = some v := by
  unfold mapSet
  cases hk : hasKey m k
  · rw [if_neg Bool.false_ne_true]
    exact lookup_append_self m k v hk
  · rw [if_pos rfl]
    exact lookup_map_replace m k v hk

theorem hasKey_false_of_lookup_none {κ ν : Type} [DecidableEq κ]
    {m : List (κ × ν)} {k : κ} (h : lookup m k = none) :
    hasKey m k = false := by
  unfold lookup at h
  rw [Option.map_eq_none', List.find?_eq_none] at h
  unfold hasKey
  rw [List.any_eq_false]
  exact h

theorem mapSet_keys_nodup {κ ν : Type} [DecidableEq κ] (m : List (κ × ν))
    (k : κ) (v : ν) (hnd : (m.map (fun p => p.1)).Nodup) :
    ((mapSet m k v).map (fun p => p.1)).Nodup := by
  unfold mapSet
  cases hk : hasKey m k
  · rw [if_neg Bool.false_ne_true]
    rw [List.map_append, List.nodup_append]
    refine ⟨hnd, by simp, ?_⟩
    intro x hx hx2
    simp only [List.map_cons, List.map_nil, List.mem_singleton] at hx2
    subst hx2
    obtain ⟨p, hp, hpk⟩ := List.mem_map.mp hx
    unfold hasKey at hk
    have := List.any_eq_false.mp hk p hp
    simp [hpk] at this
  · rw [if_pos rfl]
    have heq : (m.map (fun p => if p.1 = k then (k, v) else p)).map
        (fun p => p.1) = m.map (fun p => p.1) := by
      rw [List.map_map]
      apply List.map_congr_left
      intro p hp
      by_cases hpk : p.1 = k <;> simp [hpk]
    rw [heq]
    exact hnd

/-- Claim C8: a second `getClient` with a record bearing the same session
id returns exactly the first call's client and pool, the freshly created
client is bound to the first record, `getClient` never removes a pooled
client, and key uniqueness (at most one client per session id) is
preserved. -/
theorem getClient_returns_first_instance (pool : ClientPool)
    (sc1 sc2 : SessionConfig) (hsid : sc2.sessionId = sc1.sessionId) :
    getClient (getClient pool sc1).1 sc2 = getClient pool sc1 ∧
    (lookup pool sc1.sessionId = none → (getClient pool sc1).2 = ⟨sc1⟩) ∧
    (∀ q ∈ pool, q ∈ (getClient pool sc1).1) ∧
    ((pool.map (fun p => p.1)).Nodup →
      (((getClient pool sc1).1).map (fun p => p.1)).Nodup) := by
  cases hl : lookup pool sc1.sessionId with
  | some c =>
    have hg1 : getClient pool sc1 = (pool, c) := by
      unfold getClient
      rw [hl]
    refine ⟨?_, ?_, ?_, ?_⟩
    · rw [hg1]
      show getClient pool sc2 = (pool, c)
      unfold getClient
      rw [hsid, hl]
    · intro hn
      cases hn
    · intro q hq
      rw [hg1]
      exact hq
    · intro hnd
      rw [hg1]
      exact hnd
  | none =>
    have hg1 : getClient pool sc1 = (mapSet pool sc1.sessionId ⟨sc1⟩, ⟨sc1⟩) := by
      unfold getClient
      rw [hl]
    refine ⟨?_, ?_, ?_, ?_⟩
    · rw [hg1]
      show getClient (mapSet pool sc1.sessionId ⟨sc1⟩) sc2 =
        (mapSet pool sc1.sessionId ⟨sc1⟩, (⟨sc1⟩ : GitLabClient))
      unfold getClient
      rw [hsid, lookup_mapSet_self]
    · intro _
      rw [hg1]
    · intro q hq
      rw [hg1]
      unfold mapSet
      rw [if_neg (by rw [hasKey_false_of_lookup_none hl]; exact Bool.false_ne_true)]
      exact List.mem_append_left _ hq
    · intro hnd
      rw [hg1]
      exact mapSet_keys_nodup pool _ _ hnd

def scA : SessionConfig := ⟨"s", cfgOk, 0, 0⟩

def scB : SessionConfig :=
  ⟨"s", ⟨"https://other", "t2", some "p9", "true", "false", "false", "false"⟩, 1, 1⟩

theorem getClient_returns_first_instance_check :
    getClient (getClient [] scA).1 scB = getClient [] scA ∧
      (getClient [] scA).2 = ⟨scA⟩ :=
  ⟨(getClient_returns_first_instance [] scA scB rfl).1,
    (getClient_returns_first_instance [] scA scB rfl).2.1 rfl⟩

/-- Claim C9 (amended): `getEffectiveProjectId` returns the caller's
argument when it is present and nonempty, else the configured default when
that is present and nonempty, else the empty string; a present-but-empty
argument is treated as absent by the JavaScript or-chain. -/
theorem effectiveProjectId_precedence (c : GitLabClient) (r : Option String) :
    (∀ s, r = some s → s ≠ "" → getEffectiveProjectId c r = s) ∧
    ((r = none ∨ r = some "") →
      ∀ p, c.boundConfig.config.project_id = some p → p ≠ "" →
        getEffectiveProjectId c r = p) ∧
    ((r = none ∨ r = some "") →
      (c.boundConfig.config.project_id = none ∨
        c.boundConfig.config.project_id = some "") →
      getEffectiveProjectId c r = "") := by
  refine ⟨?_, ?_, ?_⟩
  · intro s hr hs
    subst hr
    simp [getEffectiveProjectId, jsOr, hs]
  · intro hr p hp hps
    rcases hr with rfl | rfl <;> simp [getEffectiveProjectId, jsOr, hp, hps]
  · intro hr hp
    rcases hr with rfl | rfl <;> rcases hp with h | h <;>
      simp [getEffectiveProjectId, jsOr, h]

def cW : GitLabClient :=
  ⟨⟨"s", ⟨"u", "t", some "p", "false", "false", "false", "false"⟩, 0, 0⟩⟩

theorem effectiveProjectId_precedence_check :
    getEffectiveProjectId cW (some "q") = "q" ∧
      getEffectiveProjectId cW none = "p" :=
  ⟨(effectiveProjectId_precedence cW (some "q")).1 "q" rfl (by decide),
    (effectiveProjectId_precedence cW none).2.1 (Or.inl rfl) "p" rfl (by decide)⟩

/-- Claim C9 fails as stated: an explicitly supplied empty project id does
not take precedence — the configured default `p` wins because the empty
string is falsy in the or-chain. -/
theorem effectiveProjectId_empty_argument_loses :
    getEffectiveProjectId cW (some "") = "p" ∧
      getEffectiveProjectId cW (some "") ≠ "" := by
  constructor
  · rfl
  · decide

end GitLabMcp
